import Mathlib

/-!
Verification of the Deterministic Build Cache specified for the
gdsfactory notebooks repository.  The repository's source consists of two
tutorial notebooks; the caching `@cell` decorator they document lives in the
external library, so the cache itself is modelled here from the
specification's data model (§3), operations (§4.1), error design (§7) and
concurrency contract (§5), and the claims are settled against that model.
-/

namespace BuildCache

/-- Modelled from the spec: the canonicalizable argument values of §3
("primitive, tuple, or nested structure of primitives" — tuples appear as
nested pairs terminated by `unit`) together with the two kinds of
non-canonicalizable inputs §7 requires `get_or_build` to reject: unordered
collections without a defined canonical order, and randomly-seeded
values. -/
inductive Value where
  | int : Int → Value
  | str : String → Value
  | unit : Value
  | pair : Value → Value → Value
  | uset : Value → Value
  | seeded : Nat → Value
deriving DecidableEq, Repr

/-- Modelled from the spec: whether a value can be canonically serialized
(§4.1): primitives and nested structures of canonicalizable values are
accepted; unordered collections and randomly-seeded values are not. -/
def canonicalizable : Value → Bool
  | .int _ => true
  | .str _ => true
  | .unit => true
  | .pair a b => canonicalizable a && canonicalizable b
  | .uset _ => false
  | .seeded _ => false

/-- Modelled from the spec: an ArgumentBinding (§3), an ordered mapping from
parameter name to value, as supplied at the call site (call-time keyword
order is preserved in the list). -/
abbrev ArgumentBinding := List (String × Value)

/-- Look up the value bound to a parameter name in a binding (first match). -/
def lookupArg (name : String) : ArgumentBinding → Option Value
  | [] => none
  | p :: rest => if p.1 = name then some p.2 else lookupArg name rest

/-- Modelled from the spec: the canonical form of a call's arguments.  The
factory's declared parameter list (names with default values, in declaration
order) fixes a canonical ordering; each declared parameter is mapped to the
supplied value when the caller bound it and to its default otherwise, so the
result is independent of call-time keyword order. -/
def mergeDefaults (params : List (String × Value)) (args : ArgumentBinding) :
    List (String × Value) :=
  params.map (fun p => (p.1, (lookupArg p.1 args).getD p.2))

/-- First parameter name in the binding whose value is not canonicalizable,
if any. -/
def firstNonCanonical : ArgumentBinding → Option String
  | [] => none
  | p :: rest =>
      if canonicalizable p.2 then firstNonCanonical rest else some p.1

/-- Modelled from the spec: a CacheKey (§3) is derived from the
FactoryIdentity and the canonical serialization of the ArgumentBinding;
the canonicalization is collision-free by construction (structural
equality, not a lossy hash, per §4.1's rename_collision_policy). -/
structure CacheKey where
  fid : String
  canon : List (String × Value)
deriving DecidableEq, Repr

/-- Modelled from the spec: an Artifact (§3) as the cache sees it: a unique
identity (reference), the settings record mapping each factory parameter to
the value used to build it, and the payload produced by the factory. -/
structure Artifact where
  id : Nat
  settings : List (String × Value)
  payload : Value
deriving DecidableEq, Repr

/-- Modelled from the spec: a Factory (§6, glossary): a stable identity, the
declared parameters with their default values in declaration order, and the
build procedure, which may fail with an error message. -/
structure Factory where
  fid : String
  params : List (String × Value)
  build : List (String × Value) → Except String Value

/-- Modelled from the spec: the error kinds of §7 that `get_or_build` can
signal: `nonDeterministicInput` (non-canonicalizable argument, named),
`keyCollision` (structurally distinct arguments behind one key), and a
factory exception propagated unchanged. -/
inductive BuildError where
  | nonDeterministicInput : String → BuildError
  | keyCollision : CacheKey → BuildError
  | factoryRaised : String → BuildError
deriving DecidableEq, Repr

/-- Modelled from the spec: the process-wide Cache (§3): a mapping from
CacheKey to Artifact, a fresh-identity counter for newly built artifacts,
and the factory-invocation counter §8's scenarios observe. -/
structure Cache where
  entries : List (CacheKey × Artifact)
  nextId : Nat
  invocations : Nat
deriving DecidableEq, Repr

/-- The cache at process start: empty (§3 lifecycle). -/
def emptyCache : Cache := ⟨[], 0, 0⟩

/-- Association lookup in the cache's entry list. -/
def lookupEntry (k : CacheKey) : List (CacheKey × Artifact) → Option Artifact
  | [] => none
  | e :: rest => if e.1 = k then some e.2 else lookupEntry k rest

/-- The CacheKey computed for a call of factory `f` with arguments `args`. -/
def keyOf (f : Factory) (args : ArgumentBinding) : CacheKey :=
  ⟨f.fid, mergeDefaults f.params args⟩

/-- Modelled from the spec: `get_or_build` (§4.1).  Validates the arguments
first (§7: `NonDeterministicInputError` before any build attempt), computes
the CacheKey, returns the stored Artifact on a hit (after checking that the
stored artifact was built from the same canonical arguments; a mismatch is
the fatal `KeyCollisionError`), and on a miss invokes the factory exactly
once: a failure is propagated with no cache entry left behind, a success is
stored under the key.  The invocation counter records every factory
invocation, successful or not. -/
def get_or_build (f : Factory) (args : ArgumentBinding) (c : Cache) :
    Except BuildError Artifact × Cache :=
  match firstNonCanonical args with
  | some bad => (.error (.nonDeterministicInput bad), c)
  | none =>
    match lookupEntry (keyOf f args) c.entries with
    | some art =>
        if art.settings = mergeDefaults f.params args then (.ok art, c)
        else (.error (.keyCollision (keyOf f args)), c)
    | none =>
        match f.build (mergeDefaults f.params args) with
        | .error e =>
            (.error (.factoryRaised e), { c with invocations := c.invocations + 1 })
        | .ok payload =>
            (.ok ⟨c.nextId, mergeDefaults f.params args, payload⟩,
             { entries :=
                 (keyOf f args,
                  (⟨c.nextId, mergeDefaults f.params args, payload⟩ : Artifact))
                   :: c.entries,
               nextId := c.nextId + 1,
               invocations := c.invocations + 1 })

/-- Modelled from the spec: `invalidate` (§4.1) removes the one entry for
the given key; everything else in the cache is untouched. -/
def invalidate (k : CacheKey) (c : Cache) : Cache :=
  { c with entries := c.entries.filter (fun e => decide (e.1 ≠ k)) }

/-- Modelled from the spec: `clear_all` (§4.1) empties the cache; only
future lookups are affected. -/
def clear_all (c : Cache) : Cache :=
  { c with entries := [] }

/-! ### Concurrent-cache transition system (spec §4.1 state machine, §5)

The spec's per-key state machine and its concurrency contract concern a
shared cache mutated by several callers, so they are modelled as a labelled
transition system over the shared state rather than as the sequential
`get_or_build` function. -/

/-- Modelled from the spec: the per-key cache status the §4.1 state machine
speaks about. -/
inductive KeyStatus where
  | absent
  | building
  | present
deriving DecidableEq, Repr

/-- Modelled from the spec: the per-key transitions §4.1 allows (staying in
place included): ABSENT → BUILDING, BUILDING → PRESENT, BUILDING → ABSENT
(build failure), PRESENT → ABSENT (invalidate/clear). -/
def allowedTransition : KeyStatus → KeyStatus → Bool
  | .absent, .building => true
  | .building, .present => true
  | .building, .absent => true
  | .present, .absent => true
  | a, b => decide (a = b)

/-- Modelled from the spec: what one caller of `get_or_build` is doing:
waiting to be scheduled, performing the in-flight build for its key, done
with an artifact, or failed with the factory's error. -/
inductive ThreadState where
  | pending
  | running
  | done (a : Artifact)
  | failed (e : String)
deriving DecidableEq, Repr

/-- Modelled from the spec: the shared state of the concurrent cache (§5):
the entry map, the keys with an in-flight build, the callers' states, the
fresh-identity source and the invocation counter. -/
structure SysState where
  entries : List (CacheKey × Artifact)
  building : List CacheKey
  threads : List ThreadState
  nextId : Nat
  invocations : Nat
deriving Repr

/-- The key requested by one caller. -/
def reqKey (r : Factory × ArgumentBinding) : CacheKey := keyOf r.1 r.2

/-- The canonical binding of one caller's request. -/
def reqCanon (r : Factory × ArgumentBinding) : List (String × Value) :=
  mergeDefaults r.1.params r.2

/-- Modelled from the spec: the caller steps of the concurrent cache (§5),
with `reqs` listing each caller's request.  A pending caller whose key is
present takes the stored artifact, with no condition on other keys'
in-flight builds, so present-key lookups never block on them.  A pending
caller whose key is absent and not in flight becomes the key's single
builder — this is the factory invocation, and it is counted.  A builder,
holding the key's build marker while the entry is still unpublished,
either completes and publishes the artifact or fails, leaving the key
absent. -/
inductive CStep (reqs : List (Factory × ArgumentBinding)) :
    SysState → SysState → Prop where
  | hit (s : SysState) (i : Nat) (r : Factory × ArgumentBinding)
      (a : Artifact)
      (hr : reqs[i]? = some r)
      (ht : s.threads[i]? = some .pending)
      (hl : lookupEntry (reqKey r) s.entries = some a) :
      CStep reqs s { s with threads := s.threads.set i (.done a) }
  | startBuild (s : SysState) (i : Nat) (r : Factory × ArgumentBinding)
      (hr : reqs[i]? = some r)
      (ht : s.threads[i]? = some .pending)
      (hl : lookupEntry (reqKey r) s.entries = none)
      (hb : reqKey r ∉ s.building) :
      CStep reqs s { s with building := reqKey r :: s.building,
                            threads := s.threads.set i .running,
                            invocations := s.invocations + 1 }
  | finishBuild (s : SysState) (i : Nat) (r : Factory × ArgumentBinding)
      (payload : Value)
      (hr : reqs[i]? = some r)
      (ht : s.threads[i]? = some .running)
      (hb : reqKey r ∈ s.building)
      (hl : lookupEntry (reqKey r) s.entries = none)
      (hbuild : r.1.build (reqCanon r) = .ok payload) :
      CStep reqs s
        { s with
          entries := (reqKey r, ⟨s.nextId, reqCanon r, payload⟩) :: s.entries,
          building := s.building.erase (reqKey r),
          threads := s.threads.set i (.done ⟨s.nextId, reqCanon r, payload⟩),
          nextId := s.nextId + 1 }
  | failBuild (s : SysState) (i : Nat) (r : Factory × ArgumentBinding)
      (e : String)
      (hr : reqs[i]? = some r)
      (ht : s.threads[i]? = some .running)
      (hb : reqKey r ∈ s.building)
      (hl : lookupEntry (reqKey r) s.entries = none)
      (hbuild : r.1.build (reqCanon r) = .error e) :
      CStep reqs s { s with building := s.building.erase (reqKey r),
                            threads := s.threads.set i (.failed e) }

/-- Modelled from the spec: the cache-management steps, `invalidate` of one
key and `clear_all` (§4.1), lifted to the shared state. -/
inductive MStep : SysState → SysState → Prop where
  | invalidateStep (s : SysState) (k : CacheKey) :
      MStep s { s with entries := s.entries.filter fun e => decide (e.1 ≠ k) }
  | clearStep (s : SysState) :
      MStep s { s with entries := [] }

/-- Any step of the full system: a caller step or a management step. -/
def Step (reqs : List (Factory × ArgumentBinding)) (s s' : SysState) : Prop :=
  CStep reqs s s' ∨ MStep s s'

/-- The status of one key given the entry map and the in-flight keys. -/
def keyStatus (entries : List (CacheKey × Artifact)) (building : List CacheKey)
    (k : CacheKey) : KeyStatus :=
  match lookupEntry k entries with
  | some _ => .present
  | none => if k ∈ building then .building else .absent

/-- The per-key status the §4.1 state machine observes on the shared
state. -/
def statusOf (s : SysState) (k : CacheKey) : KeyStatus :=
  keyStatus s.entries s.building k

/-- A freshly initialized shared cache: no entries and no in-flight
builds. -/
def InitOk (s : SysState) : Prop :=
  s.entries = [] ∧ s.building = []

/-- The internal consistency invariant of the shared cache: in-flight keys
are pairwise distinct, no in-flight key has a published entry, and the
entry map binds each key at most once. -/
def Inv (s : SysState) : Prop :=
  s.building.Nodup ∧
    (∀ k ∈ s.building, lookupEntry k s.entries = none) ∧
    (s.entries.map Prod.fst).Nodup

/-- The phase invariant of the N-equal-callers scenario: the shared state
is untouched (no invocation yet), or mid-build with a single builder and
one recorded invocation, or published with every caller pending or done
with the one artifact. -/
def ScenarioInv (f : Factory) (args : ArgumentBinding) (n : Nat)
    (s : SysState) : Prop :=
  s.threads.length = n ∧
    ((s.entries = [] ∧ s.building = [] ∧ s.invocations = 0 ∧
        ∀ i, i < n → s.threads[i]? = some .pending) ∨
      (s.entries = [] ∧ s.building = [keyOf f args] ∧ s.invocations = 1 ∧
        ∃ j, j < n ∧ s.threads[j]? = some .running ∧
          ∀ i, i < n → i ≠ j → s.threads[i]? = some .pending) ∨
      (∃ a, s.entries = [(keyOf f args, a)] ∧ s.building = [] ∧
        s.invocations = 1 ∧
        ∀ i, i < n → s.threads[i]? = some .pending ∨
          s.threads[i]? = some (.done a)))

/-! ### Concrete fixtures

A factory mirroring the notebook's `straight` cell (`@gf.cell def straight
(length=10, width=1)`), used to exercise the theorems on concrete inputs,
and a factory whose build always fails. -/

def straightFactory : Factory :=
  { fid := "straight",
    params := [("length", .int 10), ("width", .int 1)],
    build := fun _ => .ok (.str "wg") }

def straightCanon : List (String × Value) :=
  [("length", .int 10), ("width", .int 1)]

def straightKey : CacheKey := ⟨"straight", straightCanon⟩

def straightArtifact : Artifact := ⟨0, straightCanon, .str "wg"⟩

def straightCache : Cache := ⟨[(straightKey, straightArtifact)], 1, 1⟩

def failingFactory : Factory :=
  { fid := "flaky",
    params := [("length", .int 10)],
    build := fun _ => .error "boom" }

def straightCanon12 : List (String × Value) :=
  [("length", .int 12), ("width", .int 1)]

def straightKey12 : CacheKey := ⟨"straight", straightCanon12⟩

def straightArtifact12 : Artifact := ⟨1, straightCanon12, .str "wg"⟩

def straightCache2 : Cache :=
  ⟨[(straightKey12, straightArtifact12), (straightKey, straightArtifact)], 2, 2⟩

def corruptArtifact : Artifact := ⟨7, [], .str "zz"⟩

def corruptCache : Cache := ⟨[(straightKey, corruptArtifact)], 8, 0⟩

/-- Two concurrent callers both requesting `straight(length=10)`. -/
def twoCallers : List (Factory × ArgumentBinding) :=
  List.replicate 2 (straightFactory, [("length", Value.int 10)])

def sysInit2 : SysState := ⟨[], [], List.replicate 2 .pending, 0, 0⟩

def sysMid2 : SysState := ⟨[], [straightKey], [.running, .pending], 0, 1⟩

def sysPub2 : SysState :=
  ⟨[(straightKey, straightArtifact)], [], [.done straightArtifact, .pending],
    1, 1⟩

def sysFin2 : SysState :=
  ⟨[(straightKey, straightArtifact)], [],
    [.done straightArtifact, .done straightArtifact], 1, 1⟩

/-- A shared state with an unrelated key mid-build while `straightKey` is
already present. -/
def sysOther : SysState :=
  ⟨[(straightKey, straightArtifact)], [straightKey12], [.pending], 5, 3⟩

/-! ### Basic lemmas about `get_or_build` -/

/-- A successful call implies the arguments passed validation. -/
theorem gob_ok_canonical {f : Factory} {args : ArgumentBinding} {c c' : Cache}
    {a : Artifact} (h : get_or_build f args c = (.ok a, c')) :
    firstNonCanonical args = none := by
  unfold get_or_build at h
  split at h
  · simp at h
  · assumption

/-- Any artifact `get_or_build` returns successfully carries the canonical
argument binding as its settings record: a freshly built artifact by
construction, a cache hit because of the collision check. -/
theorem gob_ok_settings {f : Factory} {args : ArgumentBinding} {c c' : Cache}
    {a : Artifact} (h : get_or_build f args c = (.ok a, c')) :
    a.settings = mergeDefaults f.params args := by
  unfold get_or_build at h
  split at h
  · simp at h
  · split at h
    · split at h
      · simp only [Prod.mk.injEq, Except.ok.injEq] at h
        obtain ⟨rfl, rfl⟩ := h
        assumption
      · simp at h
    · split at h
      · simp at h
      · simp only [Prod.mk.injEq, Except.ok.injEq] at h
        obtain ⟨rfl, rfl⟩ := h
        rfl

/-- After a successful call, the returned cache maps the call's key to the
returned artifact. -/
theorem gob_ok_lookup {f : Factory} {args : ArgumentBinding} {c c' : Cache}
    {a : Artifact} (h : get_or_build f args c = (.ok a, c')) :
    lookupEntry (keyOf f args) c'.entries = some a := by
  unfold get_or_build at h
  split at h
  · simp at h
  · split at h
    · split at h
      · simp only [Prod.mk.injEq, Except.ok.injEq] at h
        obtain ⟨rfl, rfl⟩ := h
        assumption
      · simp at h
    · split at h
      · simp at h
      · simp only [Prod.mk.injEq, Except.ok.injEq] at h
        obtain ⟨rfl, rfl⟩ := h
        simp [lookupEntry]

/-- Repeating a successful call against the cache it returned is a pure
cache hit: the very same artifact comes back and the cache is unchanged. -/
theorem gob_roundtrip {f : Factory} {args : ArgumentBinding} {c c' : Cache}
    {a : Artifact} (h : get_or_build f args c = (.ok a, c')) :
    get_or_build f args c' = (.ok a, c') := by
  have hcanon := gob_ok_canonical h
  have hset := gob_ok_settings h
  have hlook := gob_ok_lookup h
  unfold get_or_build
  rw [hcanon, hlook]
  simp [hset]

/-- A binding containing a non-canonicalizable value is caught by
validation: `firstNonCanonical` reports some offending parameter. -/
theorem firstNonCanonical_isSome {args : ArgumentBinding}
    (h : ∃ p ∈ args, canonicalizable p.2 = false) :
    ∃ bad, firstNonCanonical args = some bad := by
  induction args with
  | nil => simp at h
  | cons hd tl ih =>
    obtain ⟨n, v⟩ := hd
    by_cases hc : canonicalizable v
    · obtain ⟨p, hp, hpc⟩ := h
      rcases List.mem_cons.mp hp with rfl | hmem
      · exact absurd hc (by simp [hpc])
      · obtain ⟨bad, hbad⟩ := ih ⟨p, hmem, hpc⟩
        exact ⟨bad, by simp [firstNonCanonical, hc, hbad]⟩
    · exact ⟨n, by simp [firstNonCanonical, hc]⟩

/-! ### Claim theorems -/

/-- C1: Identity round-trip.  Once a call of `get_or_build` for a fixed
(factory, args) pair has succeeded, every repeated call against the
resulting cache (no clear/invalidate in between) returns the identical
Artifact that the first call stored, with the cache — in particular its
factory-invocation counter — unchanged, so the factory is never re-invoked
on subsequent equal calls. -/
theorem C1_identity_roundtrip (f : Factory) (args : ArgumentBinding)
    (c c' : Cache) (a : Artifact)
    (h : get_or_build f args c = (.ok a, c')) :
    get_or_build f args c' = (.ok a, c') ∧
      (get_or_build f args c').2.invocations = c'.invocations := by
  have hr := gob_roundtrip h
  exact ⟨hr, by rw [hr]⟩

/-- C1 witness: the notebook's `straight()` call, repeated, hits the
cache. -/
theorem C1_identity_roundtrip_witness :
    get_or_build straightFactory [("length", .int 10)] emptyCache =
        (.ok straightArtifact, straightCache) ∧
      (get_or_build straightFactory [("length", .int 10)] straightCache =
          (.ok straightArtifact, straightCache) ∧
        (get_or_build straightFactory [("length", .int 10)]
              straightCache).2.invocations = straightCache.invocations) :=
  ⟨by rfl,
   C1_identity_roundtrip straightFactory [("length", .int 10)] emptyCache
     straightCache straightArtifact (by rfl)⟩

/-- C2: Key injectivity and collision policy.  For one factory, argument
sets that differ under canonicalization get distinct CacheKeys, and the
artifacts two such back-to-back successful calls return are distinct
(their settings records are the two distinct canonical bindings).  And
whenever a lookup ever surfaces an entry whose stored artifact was built
from different canonical arguments than the requested ones — the
hash/serialization-collision situation — `get_or_build` signals the fatal
`keyCollision` error instead of returning that artifact. -/
theorem C2_key_injectivity (f : Factory) (args1 args2 : ArgumentBinding)
    (c c1 c2 cx : Cache) (a1 a2 ax : Artifact)
    (hne : mergeDefaults f.params args1 ≠ mergeDefaults f.params args2)
    (h1 : get_or_build f args1 c = (.ok a1, c1))
    (h2 : get_or_build f args2 c1 = (.ok a2, c2))
    (hl : lookupEntry (keyOf f args1) cx.entries = some ax)
    (hset : ax.settings ≠ mergeDefaults f.params args1) :
    keyOf f args1 ≠ keyOf f args2 ∧ a1 ≠ a2 ∧
      (get_or_build f args1 cx).1 =
        .error (.keyCollision (keyOf f args1)) := by
  refine ⟨?_, ?_, ?_⟩
  · intro hk
    exact hne (congrArg CacheKey.canon hk)
  · intro ha
    apply hne
    rw [← gob_ok_settings h1, ← gob_ok_settings h2, ha]
  · have hcanon := gob_ok_canonical h1
    unfold get_or_build
    rw [hcanon, hl]
    simp [hset]

/-- C2 witness: `straight(length=10)` and `straight(length=12)` get distinct
keys and artifacts, and a (corrupted) entry stored under the first key with
foreign settings is reported as a key collision. -/
theorem C2_key_injectivity_witness :
    mergeDefaults straightFactory.params [("length", Value.int 10)] ≠
        mergeDefaults straightFactory.params [("length", Value.int 12)] ∧
      get_or_build straightFactory [("length", Value.int 10)] emptyCache =
        (.ok straightArtifact, straightCache) ∧
      get_or_build straightFactory [("length", Value.int 12)] straightCache =
        (.ok straightArtifact12, straightCache2) ∧
      lookupEntry (keyOf straightFactory [("length", Value.int 10)])
          corruptCache.entries = some corruptArtifact ∧
      corruptArtifact.settings ≠
        mergeDefaults straightFactory.params [("length", Value.int 10)] ∧
      (keyOf straightFactory [("length", Value.int 10)] ≠
          keyOf straightFactory [("length", Value.int 12)] ∧
        straightArtifact ≠ straightArtifact12 ∧
        (get_or_build straightFactory [("length", Value.int 10)]
            corruptCache).1 =
          .error (.keyCollision (keyOf straightFactory
            [("length", Value.int 10)]))) :=
  ⟨by decide, rfl, rfl, by decide, by decide,
   C2_key_injectivity straightFactory [("length", Value.int 10)]
     [("length", Value.int 12)] emptyCache straightCache straightCache2
     corruptCache straightArtifact straightArtifact12 corruptArtifact
     (by decide) rfl rfl (by decide) (by decide)⟩

/-- Looking a name up in a binding is invariant under permutation, provided
the binding binds no parameter name twice. -/
theorem lookupArg_perm : ∀ {args1 args2 : ArgumentBinding}, args1.Perm args2 →
    (args1.map Prod.fst).Nodup →
    ∀ n, lookupArg n args1 = lookupArg n args2 := by
  intro args1 args2 hperm
  induction hperm with
  | nil => intro _ _; rfl
  | cons x h ih =>
    intro hnd n
    have hnd' := by
      simp only [List.map_cons, List.nodup_cons] at hnd
      exact hnd.2
    unfold lookupArg
    rw [ih hnd' n]
  | swap x y l =>
    intro hnd n
    have hyx : y.1 ≠ x.1 := by
      rw [List.map_cons, List.map_cons] at hnd
      intro hc
      exact (List.nodup_cons.mp hnd).1
        (by rw [hc]; exact List.mem_cons_self _ _)
    show (if y.1 = n then some y.2
          else if x.1 = n then some x.2 else lookupArg n l) =
        (if x.1 = n then some x.2
          else if y.1 = n then some y.2 else lookupArg n l)
    by_cases hy : y.1 = n
    · by_cases hx : x.1 = n
      · exact absurd (hy.trans hx.symm) hyx
      · rw [if_pos hy, if_neg hx, if_pos hy]
    · by_cases hx : x.1 = n
      · rw [if_neg hy, if_pos hx, if_pos hx]
      · rw [if_neg hy, if_neg hx, if_neg hx, if_neg hy]
  | trans h12 h23 ih12 ih23 =>
    intro hnd n
    rw [ih12 hnd n, ih23 (((h12.map Prod.fst).nodup_iff).mp hnd) n]

/-- The canonical binding is invariant under permutation of the supplied
arguments (no duplicate parameter names). -/
theorem mergeDefaults_perm (params : List (String × Value))
    {args1 args2 : ArgumentBinding} (hperm : args1.Perm args2)
    (hnd : (args1.map Prod.fst).Nodup) :
    mergeDefaults params args1 = mergeDefaults params args2 := by
  unfold mergeDefaults
  have hfun : (fun p : String × Value =>
      (p.1, (lookupArg p.1 args1).getD p.2)) =
      (fun p : String × Value => (p.1, (lookupArg p.1 args2).getD p.2)) := by
    funext p
    rw [lookupArg_perm hperm hnd p.1]
  rw [hfun]

/-- C4: Argument-order independence of the CacheKey.  Two keyword-argument
permutations expressing the same parameter-to-value bindings yield the same
CacheKey.  `keyOf` is a pure function of the factory and the canonical
binding alone — it reads no cache, counter or other process state — so the
key is also independent of process run and invocation count. -/
theorem C4_arg_order_independence (f : Factory) (args1 args2 : ArgumentBinding)
    (hperm : args1.Perm args2) (hnd : (args1.map Prod.fst).Nodup) :
    keyOf f args1 = keyOf f args2 := by
  unfold keyOf
  rw [mergeDefaults_perm f.params hperm hnd]

/-- C4 witness: `straight(width=2, length=12)` and `straight(length=12,
width=2)` share one CacheKey. -/
theorem C4_arg_order_independence_witness :
    ([("width", Value.int 2), ("length", Value.int 12)] :
        ArgumentBinding).Perm
        [("length", Value.int 12), ("width", Value.int 2)] ∧
      (([("width", Value.int 2), ("length", Value.int 12)] :
          ArgumentBinding).map Prod.fst).Nodup ∧
      keyOf straightFactory [("width", Value.int 2), ("length", Value.int 12)] =
        keyOf straightFactory
          [("length", Value.int 12), ("width", Value.int 2)] :=
  ⟨by decide, by decide,
   C4_arg_order_independence straightFactory
     [("width", Value.int 2), ("length", Value.int 12)]
     [("length", Value.int 12), ("width", Value.int 2)]
     (by decide) (by decide)⟩

/-- In the canonical binding, each declared parameter is bound to the
supplied value when the caller bound it, and to its declared default
otherwise. -/
theorem lookupArg_mergeDefaults {params : List (String × Value)}
    {args : ArgumentBinding} {p : String} {d : Value}
    (hnd : (params.map Prod.fst).Nodup) (hp : (p, d) ∈ params) :
    lookupArg p (mergeDefaults params args) =
      some ((lookupArg p args).getD d) := by
  induction params with
  | nil => simp at hp
  | cons hd tl ih =>
    simp only [List.map_cons, List.nodup_cons] at hnd
    rcases List.mem_cons.mp hp with heq | hmem
    · subst heq
      simp [mergeDefaults, lookupArg]
    · have hne : hd.1 ≠ p := by
        intro hc
        exact hnd.1 (hc ▸ List.mem_map_of_mem Prod.fst hmem)
      show (if hd.1 = p then some ((lookupArg hd.1 args).getD hd.2)
          else lookupArg p
            (tl.map fun q => (q.1, (lookupArg q.1 args).getD q.2))) =
        some ((lookupArg p args).getD d)
      rw [if_neg hne]
      exact ih hnd.2 hmem

/-- C10: Argument traceability of cached artifacts.  Every artifact a
successful `get_or_build` returns carries the canonical binding as its
settings record, so each declared parameter — defaulted ones included — is
recorded there with the value the factory was invoked with; and a repeated
call returns that same artifact, so the record is identical whether the
artifact was freshly built or served from the cache. -/
theorem C10_settings_traceability (f : Factory) (args : ArgumentBinding)
    (c c' : Cache) (a : Artifact) (p : String) (d : Value)
    (h : get_or_build f args c = (.ok a, c'))
    (hnd : (f.params.map Prod.fst).Nodup)
    (hp : (p, d) ∈ f.params) :
    a.settings = mergeDefaults f.params args ∧
      lookupArg p a.settings = some ((lookupArg p args).getD d) ∧
      get_or_build f args c' = (.ok a, c') := by
  have hs := gob_ok_settings h
  refine ⟨hs, ?_, gob_roundtrip h⟩
  rw [hs]
  exact lookupArg_mergeDefaults hnd hp

/-- C10 witness: `straight(length=10)` records the defaulted `width = 1` in
its settings, cached and fresh alike. -/
theorem C10_settings_traceability_witness :
    get_or_build straightFactory [("length", Value.int 10)] emptyCache =
        (.ok straightArtifact, straightCache) ∧
      ((straightFactory.params.map Prod.fst).Nodup ∧
        ("width", Value.int 1) ∈ straightFactory.params) ∧
      (straightArtifact.settings =
          mergeDefaults straightFactory.params [("length", Value.int 10)] ∧
        lookupArg "width" straightArtifact.settings =
          some ((lookupArg "width"
            ([("length", Value.int 10)] : ArgumentBinding)).getD
              (Value.int 1)) ∧
        get_or_build straightFactory [("length", Value.int 10)]
            straightCache = (.ok straightArtifact, straightCache)) :=
  ⟨rfl, ⟨by decide, by decide⟩,
   C10_settings_traceability straightFactory [("length", Value.int 10)]
     emptyCache straightCache straightArtifact "width" (Value.int 1) rfl
     (by decide) (by decide)⟩

/-- C7: Input validation precedes building.  For any argument binding
containing a non-canonicalizable value, `get_or_build` signals
`nonDeterministicInput` naming an offending parameter, and the cache is
returned unchanged: no factory invocation happened and no entry was
created. -/
theorem C7_validation_precedes_build (f : Factory) (args : ArgumentBinding)
    (c : Cache) (h : ∃ p ∈ args, canonicalizable p.2 = false) :
    ∃ bad, get_or_build f args c = (.error (.nonDeterministicInput bad), c) := by
  obtain ⟨bad, hbad⟩ := firstNonCanonical_isSome h
  exact ⟨bad, by unfold get_or_build; rw [hbad]⟩

/-- C3: Build-failure atomicity and retry.  When the arguments are valid,
the key is uncached and the factory fails, `get_or_build` propagates the
factory's error unchanged, records the invocation, and leaves the entry
list untouched (the key stays absent); the immediately following call with
the same arguments invokes the factory again (counter reaches +2). -/
theorem C3_build_failure_atomic (f : Factory) (args : ArgumentBinding)
    (c : Cache) (e : String)
    (hcanon : firstNonCanonical args = none)
    (hmiss : lookupEntry (keyOf f args) c.entries = none)
    (hfail : f.build (mergeDefaults f.params args) = .error e) :
    get_or_build f args c =
        (.error (.factoryRaised e), { c with invocations := c.invocations + 1 }) ∧
      (get_or_build f args c).2.entries = c.entries ∧
      (get_or_build f args
          { c with invocations := c.invocations + 1 }).2.invocations =
        c.invocations + 2 := by
  have h1 : get_or_build f args c =
      (.error (.factoryRaised e), { c with invocations := c.invocations + 1 }) := by
    unfold get_or_build
    rw [hcanon, hmiss, hfail]
  have hmiss' : lookupEntry (keyOf f args)
      ({ c with invocations := c.invocations + 1 } : Cache).entries = none := hmiss
  have h2 : get_or_build f args { c with invocations := c.invocations + 1 } =
      (.error (.factoryRaised e),
        { c with invocations := c.invocations + 1 + 1 }) := by
    unfold get_or_build
    rw [hcanon, hmiss', hfail]
  refine ⟨h1, by rw [h1], ?_⟩
  rw [h2]

/-- C3 witness: a factory that raises leaves the cache without an entry and
is retried on the next call. -/
theorem C3_build_failure_atomic_witness :
    firstNonCanonical ([("length", Value.int 10)] : ArgumentBinding) = none ∧
      lookupEntry (keyOf failingFactory [("length", Value.int 10)])
          emptyCache.entries = none ∧
      failingFactory.build
          (mergeDefaults failingFactory.params [("length", Value.int 10)]) =
        .error "boom" ∧
      (get_or_build failingFactory [("length", Value.int 10)] emptyCache =
          (.error (.factoryRaised "boom"),
            { emptyCache with invocations := emptyCache.invocations + 1 }) ∧
        (get_or_build failingFactory [("length", Value.int 10)]
            emptyCache).2.entries = emptyCache.entries ∧
        (get_or_build failingFactory [("length", Value.int 10)]
            { emptyCache with
                invocations := emptyCache.invocations + 1 }).2.invocations =
          emptyCache.invocations + 2) :=
  ⟨rfl, rfl, rfl,
   C3_build_failure_atomic failingFactory [("length", Value.int 10)] emptyCache
     "boom" rfl rfl rfl⟩

/-- C5: `clear_all` semantics.  After a successful build, clearing the cache
empties the entry list without touching the invocation counter, and the
next `get_or_build` with the previously cached arguments performs exactly
one fresh factory invocation.  Outstanding Artifact references are values
in this embedding and are untouched by `clear_all`, which rebuilds only the
Cache record's entry list. -/
theorem C5_clear_all_fresh_build (f : Factory) (args : ArgumentBinding)
    (c c' : Cache) (a : Artifact)
    (h : get_or_build f args c = (.ok a, c')) :
    (clear_all c').entries = [] ∧
      (clear_all c').invocations = c'.invocations ∧
      (get_or_build f args (clear_all c')).2.invocations =
        c'.invocations + 1 := by
  have hcanon := gob_ok_canonical h
  refine ⟨rfl, rfl, ?_⟩
  have hmiss : lookupEntry (keyOf f args) (clear_all c').entries = none := rfl
  unfold get_or_build
  rw [hcanon, hmiss]
  cases hb : f.build (mergeDefaults f.params args) <;> rfl

/-- C5 witness: the notebook's `wg()` / `gf.clear_cache()` / `wg()` cycle:
the rebuilt call after the clear invokes the factory once more. -/
theorem C5_clear_all_fresh_build_witness :
    get_or_build straightFactory [("length", .int 10)] emptyCache =
        (.ok straightArtifact, straightCache) ∧
      ((clear_all straightCache).entries = [] ∧
        (clear_all straightCache).invocations = straightCache.invocations ∧
        (get_or_build straightFactory [("length", .int 10)]
            (clear_all straightCache)).2.invocations =
          straightCache.invocations + 1) :=
  ⟨rfl,
   C5_clear_all_fresh_build straightFactory [("length", .int 10)] emptyCache
     straightCache straightArtifact rfl⟩

/-- Dropping every entry of one key from an entry list makes lookups of
that key find nothing. -/
theorem lookupEntry_filter_self (k : CacheKey)
    (l : List (CacheKey × Artifact)) :
    lookupEntry k (l.filter fun e => decide (e.1 ≠ k)) = none := by
  induction l with
  | nil => rfl
  | cons hd tl ih =>
    rw [List.filter_cons]
    by_cases hk : hd.1 = k
    · rw [if_neg (by simp [hk])]
      exact ih
    · rw [if_pos (by simp [hk])]
      unfold lookupEntry
      rw [if_neg hk]
      exact ih

/-- Dropping every entry of one key leaves lookups of any other key
unchanged. -/
theorem lookupEntry_filter_other {k k' : CacheKey} (h : k' ≠ k)
    (l : List (CacheKey × Artifact)) :
    lookupEntry k' (l.filter fun e => decide (e.1 ≠ k)) = lookupEntry k' l := by
  induction l with
  | nil => rfl
  | cons hd tl ih =>
    rw [List.filter_cons]
    by_cases hk : hd.1 = k
    · have hne : ¬ hd.1 = k' := fun hc => h (hc ▸ hk)
      rw [if_neg (by simp [hk]), ih]
      conv_rhs => unfold lookupEntry
      rw [if_neg hne]
    · rw [if_pos (by simp [hk])]
      unfold lookupEntry
      rw [ih]

/-- Invalidating a key removes every entry for it. -/
theorem lookupEntry_invalidate_self (k : CacheKey) (c : Cache) :
    lookupEntry k (invalidate k c).entries = none :=
  lookupEntry_filter_self k c.entries

/-- Invalidating a key leaves lookups of every other key unchanged. -/
theorem lookupEntry_invalidate_other {k k' : CacheKey} (c : Cache)
    (h : k' ≠ k) :
    lookupEntry k' (invalidate k c).entries = lookupEntry k' c.entries :=
  lookupEntry_filter_other h c.entries

/-- C6: `invalidate` frame property.  Invalidating one key removes exactly
that entry: the next `get_or_build` for it goes to the factory (invocation
counter advances), while any other key's cached artifact stays present and
is returned from the cache with no rebuild and no cache change. -/
theorem C6_invalidate_frame (f f' : Factory) (args args' : ArgumentBinding)
    (c : Cache) (a' : Artifact)
    (hc : firstNonCanonical args = none)
    (hc' : firstNonCanonical args' = none)
    (hne : keyOf f' args' ≠ keyOf f args)
    (hp : lookupEntry (keyOf f' args') c.entries = some a')
    (hs : a'.settings = mergeDefaults f'.params args') :
    lookupEntry (keyOf f args) (invalidate (keyOf f args) c).entries = none ∧
      (get_or_build f args (invalidate (keyOf f args) c)).2.invocations =
        c.invocations + 1 ∧
      get_or_build f' args' (invalidate (keyOf f args) c) =
        (.ok a', invalidate (keyOf f args) c) := by
  have hself := lookupEntry_invalidate_self (keyOf f args) c
  have hother := lookupEntry_invalidate_other c hne
  refine ⟨hself, ?_, ?_⟩
  · unfold get_or_build
    rw [hc, hself]
    cases hb : f.build (mergeDefaults f.params args) <;> rfl
  · unfold get_or_build
    rw [hc', hother, hp]
    simp [hs]

/-- C6 witness: deleting the `straight(length=10)` entry leaves the
`straight(length=12)` entry served from the cache while `straight(length=10)`
itself rebuilds. -/
theorem C6_invalidate_frame_witness :
    firstNonCanonical ([("length", Value.int 10)] : ArgumentBinding) = none ∧
      firstNonCanonical ([("length", Value.int 12)] : ArgumentBinding) = none ∧
      keyOf straightFactory [("length", Value.int 12)] ≠
        keyOf straightFactory [("length", Value.int 10)] ∧
      lookupEntry (keyOf straightFactory [("length", Value.int 12)])
          straightCache2.entries = some straightArtifact12 ∧
      straightArtifact12.settings =
        mergeDefaults straightFactory.params [("length", Value.int 12)] ∧
      (lookupEntry (keyOf straightFactory [("length", Value.int 10)])
          (invalidate (keyOf straightFactory [("length", Value.int 10)])
            straightCache2).entries = none ∧
        (get_or_build straightFactory [("length", Value.int 10)]
            (invalidate (keyOf straightFactory [("length", Value.int 10)])
              straightCache2)).2.invocations = straightCache2.invocations + 1 ∧
        get_or_build straightFactory [("length", Value.int 12)]
            (invalidate (keyOf straightFactory [("length", Value.int 10)])
              straightCache2) =
          (.ok straightArtifact12,
            invalidate (keyOf straightFactory [("length", Value.int 10)])
              straightCache2)) :=
  ⟨rfl, rfl, by decide, by decide, by decide,
   C6_invalidate_frame straightFactory straightFactory
     [("length", Value.int 10)] [("length", Value.int 12)] straightCache2
     straightArtifact12 rfl rfl (by decide) (by decide) (by decide)⟩

/-- C7 witness: a randomly-seeded argument is rejected before any build. -/
theorem C7_validation_precedes_build_witness :
    (∃ p ∈ ([("seed", Value.seeded 0)] : ArgumentBinding),
        canonicalizable p.2 = false) ∧
      ∃ bad,
        get_or_build straightFactory [("seed", Value.seeded 0)] emptyCache =
          (.error (.nonDeterministicInput bad), emptyCache) :=
  ⟨by decide,
   C7_validation_precedes_build straightFactory [("seed", Value.seeded 0)]
     emptyCache (by decide)⟩

/-! ### The per-key state machine on the shared cache -/

/-- `lookupEntry` finds nothing exactly when the key is absent from the
entry list. -/
theorem lookupEntry_eq_none {k : CacheKey} {l : List (CacheKey × Artifact)} :
    lookupEntry k l = none ↔ k ∉ l.map Prod.fst := by
  induction l with
  | nil => simp [lookupEntry]
  | cons hd tl ih =>
    unfold lookupEntry
    by_cases hk : hd.1 = k
    · simp [hk]
    · simp [hk, ih, Ne.symm hk]

/-- Lookup skips a leading entry whose key differs. -/
theorem lookupEntry_cons_ne {k : CacheKey} {e : CacheKey × Artifact}
    {l : List (CacheKey × Artifact)} (h : ¬ e.1 = k) :
    lookupEntry k (e :: l) = lookupEntry k l := by
  conv_lhs => unfold lookupEntry
  exact if_neg h

/-- Filtering an entry list cannot make an absent key show up. -/
theorem lookupEntry_filter_none {k : CacheKey} {l : List (CacheKey × Artifact)}
    (p : CacheKey × Artifact → Bool) (h : lookupEntry k l = none) :
    lookupEntry k (l.filter p) = none := by
  induction l with
  | nil => rfl
  | cons hd tl ih =>
    unfold lookupEntry at h
    by_cases hk : hd.1 = k
    · rw [if_pos hk] at h
      exact absurd h (by simp)
    · rw [if_neg hk] at h
      rw [List.filter_cons]
      by_cases hp : p hd
      · rw [if_pos hp]
        unfold lookupEntry
        rw [if_neg hk]
        exact ih h
      · rw [if_neg hp]
        exact ih h

/-- Staying in place is always an allowed transition. -/
theorem allowedTransition_self (a : KeyStatus) :
    allowedTransition a a = true := by
  cases a <;> rfl

theorem keyStatus_eq_absent {es : List (CacheKey × Artifact)}
    {bs : List CacheKey} {k : CacheKey}
    (hl : lookupEntry k es = none) (hb : k ∉ bs) :
    keyStatus es bs k = .absent := by
  unfold keyStatus
  rw [hl, if_neg hb]

theorem keyStatus_eq_building {es : List (CacheKey × Artifact)}
    {bs : List CacheKey} {k : CacheKey}
    (hl : lookupEntry k es = none) (hb : k ∈ bs) :
    keyStatus es bs k = .building := by
  unfold keyStatus
  rw [hl, if_pos hb]

theorem keyStatus_eq_present {es : List (CacheKey × Artifact)}
    {bs : List CacheKey} {k : CacheKey} {a : Artifact}
    (hl : lookupEntry k es = some a) :
    keyStatus es bs k = .present := by
  unfold keyStatus
  rw [hl]

/-- Two entry/in-flight configurations agreeing on a key's lookup and build
marker give it the same status. -/
theorem keyStatus_congr {es es' : List (CacheKey × Artifact)}
    {bs bs' : List CacheKey} (k : CacheKey)
    (he : lookupEntry k es' = lookupEntry k es)
    (hb : k ∈ bs' ↔ k ∈ bs) :
    keyStatus es' bs' k = keyStatus es bs k := by
  unfold keyStatus
  rw [he]
  cases lookupEntry k es with
  | some a => rfl
  | none =>
    by_cases h : k ∈ bs
    · rw [if_pos (hb.mpr h), if_pos h]
    · rw [if_neg (fun hc => h (hb.mp hc)), if_neg h]

/-- Every step of the full system preserves the consistency invariant. -/
theorem Inv_step {reqs : List (Factory × ArgumentBinding)}
    {s s' : SysState} (hstep : Step reqs s s') (hinv : Inv s) : Inv s' := by
  obtain ⟨hbn, hbl, hen⟩ := hinv
  cases hstep with
  | inl hc =>
    cases hc with
    | hit i r a hr ht hl => exact ⟨hbn, hbl, hen⟩
    | startBuild i r hr ht hl hb =>
      refine ⟨List.nodup_cons.mpr ⟨hb, hbn⟩, ?_, hen⟩
      intro k hk
      rcases List.mem_cons.mp hk with rfl | hk'
      · exact hl
      · exact hbl k hk'
    | finishBuild i r payload hr ht hb hl hbuild =>
      refine ⟨hbn.erase _, ?_, ?_⟩
      · intro k hk
        have hkb : k ∈ s.building := List.mem_of_mem_erase hk
        have hkne : k ≠ reqKey r := ((hbn.mem_erase_iff).mp hk).1
        show lookupEntry k ((reqKey r, _) :: s.entries) = none
        unfold lookupEntry
        rw [if_neg (fun hc => hkne hc.symm)]
        exact hbl k hkb
      · show (((reqKey r, _) :: s.entries).map Prod.fst).Nodup
        rw [List.map_cons]
        exact List.nodup_cons.mpr ⟨lookupEntry_eq_none.mp hl, hen⟩
    | failBuild i r e hr ht hb hl hbuild =>
      exact ⟨hbn.erase _, fun k hk => hbl k (List.mem_of_mem_erase hk), hen⟩
  | inr hm =>
    cases hm with
    | invalidateStep k =>
      refine ⟨hbn, ?_, ?_⟩
      · intro k' hk'
        exact lookupEntry_filter_none _ (hbl k' hk')
      · exact ((List.filter_sublist s.entries).map Prod.fst).nodup hen
    | clearStep =>
      exact ⟨hbn, fun k _ => rfl, by simp⟩

/-- The consistency invariant holds in every state reachable from a fresh
cache. -/
theorem Inv_reach {reqs : List (Factory × ArgumentBinding)}
    {init s : SysState} (hinit : InitOk init)
    (hreach : Relation.ReflTransGen (Step reqs) init s) : Inv s := by
  induction hreach with
  | refl =>
    refine ⟨?_, ?_, ?_⟩
    · rw [hinit.2]
      exact List.nodup_nil
    · intro k hk
      rw [hinit.2] at hk
      simp at hk
    · rw [hinit.1]
      simp
  | tail h hstep ih => exact Inv_step hstep ih

/-- In a consistent state, every step moves every key only along the §4.1
state machine. -/
theorem statusOf_step {reqs : List (Factory × ArgumentBinding)}
    {s s' : SysState} (hstep : Step reqs s s') (hinv : Inv s) (k : CacheKey) :
    allowedTransition (statusOf s k) (statusOf s' k) = true := by
  cases hstep with
  | inl hc =>
    cases hc with
    | hit i r a hr ht hl => exact allowedTransition_self _
    | startBuild i r hr ht hl hb =>
      show allowedTransition (keyStatus s.entries s.building k)
        (keyStatus s.entries (reqKey r :: s.building) k) = true
      by_cases hk : k = reqKey r
      · subst hk
        rw [keyStatus_eq_absent hl hb,
          keyStatus_eq_building hl (List.mem_cons_self _ _)]
        rfl
      · rw [keyStatus_congr k rfl
          (List.mem_cons.trans (or_iff_right hk))]
        exact allowedTransition_self _
    | finishBuild i r payload hr ht hb hl hbuild =>
      show allowedTransition (keyStatus s.entries s.building k)
        (keyStatus ((reqKey r, ⟨s.nextId, reqCanon r, payload⟩) :: s.entries)
          (s.building.erase (reqKey r)) k) = true
      by_cases hk : k = reqKey r
      · subst hk
        rw [keyStatus_eq_building hl hb,
          keyStatus_eq_present (a := ⟨s.nextId, reqCanon r, payload⟩)
            (by unfold lookupEntry; exact if_pos rfl)]
        rfl
      · rw [keyStatus_congr k
          (lookupEntry_cons_ne (fun hc => hk hc.symm))
          (List.mem_erase_of_ne hk)]
        exact allowedTransition_self _
    | failBuild i r e hr ht hb hl hbuild =>
      show allowedTransition (keyStatus s.entries s.building k)
        (keyStatus s.entries (s.building.erase (reqKey r)) k) = true
      by_cases hk : k = reqKey r
      · subst hk
        rw [keyStatus_eq_building hl hb]
        by_cases hmem : reqKey r ∈ s.building.erase (reqKey r)
        · rw [keyStatus_eq_building hl hmem]
          rfl
        · rw [keyStatus_eq_absent hl hmem]
          rfl
      · rw [keyStatus_congr k rfl (List.mem_erase_of_ne hk)]
        exact allowedTransition_self _
  | inr hm =>
    cases hm with
    | invalidateStep kk =>
      show allowedTransition (keyStatus s.entries s.building k)
        (keyStatus (s.entries.filter fun e => decide (e.1 ≠ kk))
          s.building k) = true
      cases hlk : lookupEntry k s.entries with
      | none =>
        rw [keyStatus_congr k ((lookupEntry_filter_none _ hlk).trans hlk.symm)
          Iff.rfl]
        exact allowedTransition_self _
      | some a =>
        by_cases hk : k = kk
        · subst hk
          have hnb : k ∉ s.building := fun hc => by
            rw [hinv.2.1 k hc] at hlk
            exact Option.noConfusion hlk
          rw [keyStatus_eq_present hlk,
            keyStatus_eq_absent (lookupEntry_filter_self k s.entries) hnb]
          rfl
        · rw [keyStatus_congr k (lookupEntry_filter_other hk s.entries)
            Iff.rfl]
          exact allowedTransition_self _
    | clearStep =>
      show allowedTransition (keyStatus s.entries s.building k)
        (keyStatus [] s.building k) = true
      cases hlk : lookupEntry k s.entries with
      | none =>
        rw [keyStatus_congr k
          (show lookupEntry k ([] : List (CacheKey × Artifact)) =
            lookupEntry k s.entries from hlk.symm) Iff.rfl]
        exact allowedTransition_self _
      | some a =>
        have hnb : k ∉ s.building := fun hc => by
          rw [hinv.2.1 k hc] at hlk
          exact Option.noConfusion hlk
        rw [keyStatus_eq_present hlk,
          keyStatus_eq_absent
            (show lookupEntry k ([] : List (CacheKey × Artifact)) = none
              from rfl) hnb]
        rfl

/-- C8: Per-key state-machine invariant.  Starting from a fresh shared
cache, in every reachable state every step — caller or management — moves
each key's status only along ABSENT → BUILDING → PRESENT, BUILDING →
ABSENT (build failure; a failed build never reaches PRESENT), PRESENT →
ABSENT (invalidate or clear), or leaves it in place; and the entry map
binds each CacheKey to at most one Artifact. -/
theorem C8_per_key_state_machine (reqs : List (Factory × ArgumentBinding))
    (init s s' : SysState) (k : CacheKey)
    (hinit : InitOk init)
    (hreach : Relation.ReflTransGen (Step reqs) init s)
    (hstep : Step reqs s s') :
    allowedTransition (statusOf s k) (statusOf s' k) = true ∧
      (s.entries.map Prod.fst).Nodup := by
  have hinv := Inv_reach hinit hreach
  exact ⟨statusOf_step hstep hinv k, hinv.2.2⟩

/-- C8 witness: from the fresh two-caller state, the first caller's
start-of-build moves `straightKey` from ABSENT to BUILDING. -/
theorem C8_per_key_state_machine_witness :
    InitOk sysInit2 ∧
      Relation.ReflTransGen (Step twoCallers) sysInit2 sysInit2 ∧
      Step twoCallers sysInit2 sysMid2 ∧
      (allowedTransition (statusOf sysInit2 straightKey)
          (statusOf sysMid2 straightKey) = true ∧
        (sysInit2.entries.map Prod.fst).Nodup) := by
  have hstep : Step twoCallers sysInit2 sysMid2 :=
    Or.inl (CStep.startBuild sysInit2 0
      (straightFactory, [("length", Value.int 10)]) rfl rfl rfl
      (List.not_mem_nil _))
  exact ⟨⟨rfl, rfl⟩, Relation.ReflTransGen.refl, hstep,
    C8_per_key_state_machine twoCallers sysInit2 sysInit2 sysMid2 straightKey
      ⟨rfl, rfl⟩ Relation.ReflTransGen.refl hstep⟩

/-! ### The N-equal-callers scenario -/

theorem reqKey_pair (f : Factory) (args : ArgumentBinding) :
    reqKey (f, args) = keyOf f args := rfl

theorem reqCanon_pair (f : Factory) (args : ArgumentBinding) :
    reqCanon (f, args) = mergeDefaults f.params args := rfl

/-- Indexing a replicated request list. -/
theorem replicate_req {f : Factory} {args : ArgumentBinding} {n i : Nat}
    {r : Factory × ArgumentBinding}
    (hr : (List.replicate n ((f, args) : Factory × ArgumentBinding))[i]? =
      some r) :
    i < n ∧ r = (f, args) := by
  rw [List.getElem?_replicate] at hr
  by_cases hi : i < n
  · rw [if_pos hi] at hr
    exact ⟨hi, (Option.some.inj hr).symm⟩
  · rw [if_neg hi] at hr
    exact absurd hr (by simp)

/-- One caller step preserves the equal-callers phase invariant when the
factory build succeeds. -/
theorem ScenarioInv_step {f : Factory} {args : ArgumentBinding} {n : Nat}
    {payload : Value} {s s' : SysState}
    (hfb : f.build (mergeDefaults f.params args) = .ok payload)
    (hstep : CStep (List.replicate n (f, args)) s s')
    (hinv : ScenarioInv f args n s) : ScenarioInv f args n s' := by
  obtain ⟨hlen, hphase⟩ := hinv
  cases hstep with
  | hit i r a hr ht hl =>
    obtain ⟨hi, rfl⟩ := replicate_req hr
    rcases hphase with ⟨he, hbld, hc, hp⟩ | ⟨he, hbld, hc, j, hj, hrun, hp⟩ |
      ⟨a0, he, hbld, hc, hp⟩
    · rw [he] at hl
      exact Option.noConfusion hl
    · rw [he] at hl
      exact Option.noConfusion hl
    · rw [reqKey_pair, he] at hl
      have ha : a = a0 := by
        unfold lookupEntry at hl
        rw [if_pos rfl] at hl
        exact (Option.some.inj hl).symm
      subst ha
      refine ⟨by rw [List.length_set]; exact hlen,
        Or.inr (Or.inr ⟨a, he, hbld, hc, ?_⟩)⟩
      intro i2 hi2
      by_cases hii : i2 = i
      · subst hii
        right
        rw [List.getElem?_set_self (by rw [hlen]; exact hi2)]
      · rw [List.getElem?_set_ne (fun hc2 => hii hc2.symm)]
        exact hp i2 hi2
  | startBuild i r hr ht hl hb =>
    obtain ⟨hi, rfl⟩ := replicate_req hr
    rcases hphase with ⟨he, hbld, hc, hp⟩ | ⟨he, hbld, hc, j, hj, hrun, hp⟩ |
      ⟨a0, he, hbld, hc, hp⟩
    · refine ⟨by rw [List.length_set]; exact hlen,
        Or.inr (Or.inl ⟨he, ?_, ?_, i, hi, ?_, ?_⟩)⟩
      · rw [reqKey_pair, hbld]
      · rw [hc]
      · rw [List.getElem?_set_self (by rw [hlen]; exact hi)]
      · intro i2 hi2 hne
        rw [List.getElem?_set_ne (fun hc2 => hne hc2.symm)]
        exact hp i2 hi2
    · rw [reqKey_pair, hbld] at hb
      exact absurd (List.mem_cons_self _ _) hb
    · rw [reqKey_pair, he] at hl
      unfold lookupEntry at hl
      rw [if_pos rfl] at hl
      exact Option.noConfusion hl
  | finishBuild i r payload2 hr ht hbm hl hbuild =>
    obtain ⟨hi, rfl⟩ := replicate_req hr
    rcases hphase with ⟨he, hbld, hc, hp⟩ | ⟨he, hbld, hc, j, hj, hrun, hp⟩ |
      ⟨a0, he, hbld, hc, hp⟩
    · rw [hp i hi] at ht
      exact ThreadState.noConfusion (Option.some.inj ht)
    · have hij : i = j := by
        by_contra hne
        rw [hp i hi hne] at ht
        exact ThreadState.noConfusion (Option.some.inj ht)
      subst hij
      refine ⟨by rw [List.length_set]; exact hlen,
        Or.inr (Or.inr ⟨⟨s.nextId, reqCanon (f, args), payload2⟩,
          ?_, ?_, hc, ?_⟩)⟩
      · rw [he, reqKey_pair]
      · rw [reqKey_pair, hbld, List.erase_cons_head]
      · intro i2 hi2
        by_cases hii : i2 = i
        · subst hii
          right
          rw [List.getElem?_set_self (by rw [hlen]; exact hi2)]
        · left
          rw [List.getElem?_set_ne (fun hc2 => hii hc2.symm)]
          exact hp i2 hi2 hii
    · rcases hp i hi with hpend | hdone2
      · rw [hpend] at ht
        exact ThreadState.noConfusion (Option.some.inj ht)
      · rw [hdone2] at ht
        exact ThreadState.noConfusion (Option.some.inj ht)
  | failBuild i r e hr ht hbm hl hbuild =>
    obtain ⟨hi, rfl⟩ := replicate_req hr
    rw [reqCanon_pair, show ((f, args).1 : Factory) = f from rfl, hfb]
      at hbuild
    exact Except.noConfusion hbuild

/-- The phase invariant holds in every state the N equal callers can
reach from the fresh cache. -/
theorem ScenarioInv_reach {f : Factory} {args : ArgumentBinding} {n : Nat}
    {payload : Value} {s : SysState}
    (hfb : f.build (mergeDefaults f.params args) = .ok payload)
    (hreach : Relation.ReflTransGen (CStep (List.replicate n (f, args)))
      ⟨[], [], List.replicate n .pending, 0, 0⟩ s) :
    ScenarioInv f args n s := by
  induction hreach with
  | refl =>
    exact ⟨by simp, Or.inl ⟨rfl, rfl, rfl,
      fun i hi => List.getElem?_replicate_of_lt hi⟩⟩
  | tail h hstep ih => exact ScenarioInv_step hfb hstep ih

/-- C9: Concurrent build uniqueness.  When N > 0 callers all request the
same uncached (factory, args) whose build succeeds, any execution of the
caller steps that completes all N callers performs exactly one factory
invocation, and all N callers end with the same artifact; moreover a
pending caller whose key is already present can always take its `hit`
step, whatever other keys' in-flight builds are — present-key lookups
never block on them. -/
theorem C9_concurrent_build_unique (f : Factory) (args : ArgumentBinding)
    (n : Nat) (payload : Value) (s : SysState)
    (reqs2 : List (Factory × ArgumentBinding)) (s2 : SysState) (i2 : Nat)
    (r2 : Factory × ArgumentBinding) (a2 : Artifact)
    (hn : 0 < n)
    (hfb : f.build (mergeDefaults f.params args) = .ok payload)
    (hreach : Relation.ReflTransGen (CStep (List.replicate n (f, args)))
      ⟨[], [], List.replicate n .pending, 0, 0⟩ s)
    (hdone : ∀ i, i < n → ∃ a, s.threads[i]? = some (.done a))
    (hr2 : reqs2[i2]? = some r2)
    (ht2 : s2.threads[i2]? = some .pending)
    (hl2 : lookupEntry (reqKey r2) s2.entries = some a2) :
    s.invocations = 1 ∧
      (∃ a, ∀ i, i < n → s.threads[i]? = some (.done a)) ∧
      CStep reqs2 s2 { s2 with threads := s2.threads.set i2 (.done a2) } := by
  obtain ⟨hlen, hphase⟩ := ScenarioInv_reach hfb hreach
  rcases hphase with ⟨he, hbld, hc, hp⟩ | ⟨he, hbld, hc, j, hj, hrun, hp⟩ |
    ⟨a0, he, hbld, hc, hp⟩
  · obtain ⟨a, hd⟩ := hdone 0 hn
    rw [hp 0 hn] at hd
    exact ThreadState.noConfusion (Option.some.inj hd)
  · obtain ⟨a, hd⟩ := hdone j hj
    rw [hrun] at hd
    exact ThreadState.noConfusion (Option.some.inj hd)
  · refine ⟨hc, ⟨a0, ?_⟩, CStep.hit s2 i2 r2 a2 hr2 ht2 hl2⟩
    intro i hi
    rcases hp i hi with hpend | hdone2
    · obtain ⟨a, hd⟩ := hdone i hi
      rw [hpend] at hd
      exact ThreadState.noConfusion (Option.some.inj hd)
    · exact hdone2

/-- C9 witness: two callers of `straight(length=10)`; the execution
start-build, finish-build, hit ends with one recorded invocation and both
callers holding the same artifact, and in a state where an unrelated key
is mid-build, a pending caller of the present key can still take its hit
step. -/
theorem C9_concurrent_build_unique_witness :
    0 < 2 ∧
      straightFactory.build
          (mergeDefaults straightFactory.params [("length", Value.int 10)]) =
        .ok (Value.str "wg") ∧
      Relation.ReflTransGen
        (CStep (List.replicate 2
          ((straightFactory, [("length", Value.int 10)]) :
            Factory × ArgumentBinding)))
        ⟨[], [], List.replicate 2 .pending, 0, 0⟩ sysFin2 ∧
      (∀ i, i < 2 → ∃ a, sysFin2.threads[i]? = some (.done a)) ∧
      twoCallers[0]? = some (straightFactory, [("length", Value.int 10)]) ∧
      sysOther.threads[0]? = some .pending ∧
      lookupEntry (reqKey ((straightFactory, [("length", Value.int 10)]) :
          Factory × ArgumentBinding)) sysOther.entries =
        some straightArtifact ∧
      (sysFin2.invocations = 1 ∧
        (∃ a, ∀ i, i < 2 → sysFin2.threads[i]? = some (.done a)) ∧
        CStep twoCallers sysOther
          { sysOther with
            threads := sysOther.threads.set 0 (.done straightArtifact) }) := by
  have hs1 : CStep (List.replicate 2
      ((straightFactory, [("length", Value.int 10)]) :
        Factory × ArgumentBinding)) sysInit2 sysMid2 :=
    CStep.startBuild sysInit2 0
      (straightFactory, [("length", Value.int 10)]) rfl rfl rfl
      (List.not_mem_nil _)
  have hs2 : CStep (List.replicate 2
      ((straightFactory, [("length", Value.int 10)]) :
        Factory × ArgumentBinding)) sysMid2 sysPub2 :=
    CStep.finishBuild sysMid2 0
      (straightFactory, [("length", Value.int 10)]) (Value.str "wg")
      rfl rfl (List.mem_cons_self _ _) rfl rfl
  have hs3 : CStep (List.replicate 2
      ((straightFactory, [("length", Value.int 10)]) :
        Factory × ArgumentBinding)) sysPub2 sysFin2 :=
    CStep.hit sysPub2 1 (straightFactory, [("length", Value.int 10)])
      straightArtifact rfl rfl rfl
  have hreach : Relation.ReflTransGen
      (CStep (List.replicate 2
        ((straightFactory, [("length", Value.int 10)]) :
          Factory × ArgumentBinding)))
      ⟨[], [], List.replicate 2 .pending, 0, 0⟩ sysFin2 :=
    Relation.ReflTransGen.tail
      (Relation.ReflTransGen.tail
        (Relation.ReflTransGen.tail Relation.ReflTransGen.refl hs1) hs2) hs3
  have hdone : ∀ i, i < 2 → ∃ a, sysFin2.threads[i]? = some (.done a) := by
    intro i hi
    interval_cases i
    · exact ⟨straightArtifact, rfl⟩
    · exact ⟨straightArtifact, rfl⟩
  exact ⟨by decide, rfl, hreach, hdone, rfl, rfl, rfl,
    C9_concurrent_build_unique straightFactory [("length", Value.int 10)] 2
      (Value.str "wg") sysFin2 twoCallers sysOther 0
      (straightFactory, [("length", Value.int 10)]) straightArtifact
      (by decide) rfl hreach hdone rfl rfl rfl⟩

end BuildCache
